import Mathlib

/-!
# Verification of the symptom-checker core (`streamlit_medical_diagnoser.py`)

This file is a shallow embedding of the normalization-and-scoring core of the
symptom checker:

* `normalize_symptoms` embeds the Python helper of the same name: it collects
  the structured selections and the comma-separated free text into a
  deduplicated set of stripped, lower-cased symptom strings and returns them
  as a sorted list (`sorted(user_set)`).
* `score_diseases` embeds the scoring function: for every disease of the
  knowledge base `DISEASE_SYMPTOMS` it builds a scored-candidate record and
  sorts all records by the key `(confidence, match_count)`, descending.

Python strings are modelled as `List Char` (`Str`).  `str.strip` is modelled
by dropping whitespace characters from both ends, `str.lower` by mapping
`Char.toLower` (the knowledge base and the claims only exercise ASCII data).
`str.split(',')` is `List.splitOn ','`, and string comparison is the
lexicographic order on code points (`lexLe`), which is exactly how Python
compares strings.

Python's `sorted` is a stable sort; a stable sort's output is uniquely
determined by the comparison key and the input order, so any stable sorting
algorithm is an exact model.  We use Mathlib's `List.insertionSort`, which is
stable (`List.sublist_insertionSort`).

The Python code stores `confidence` as the float
`len(match) / max(1, len(set_sym))`, whose operands are the dict's own
`match_count` and `disease_symptom_count` entries.  The embedding keeps the
two counts in the candidate record and exposes
`ScoredCandidate.confidence` as their exact rational quotient; the sort
comparator compares these quotients by cross-multiplication, which is proved
equivalent to comparing the rational values (`scoreLe_iff`).  All numerators
and denominators reachable from the fixed knowledge base are at most 7, and
rationals with numerator and denominator at most 7 are represented exactly
and compared exactly by IEEE doubles, so the exact-rational model agrees with
the float computation on every reachable value.
-/

/-- Python strings, modelled as lists of characters. -/
abbrev Str := List Char

/-- `str.strip()`: remove whitespace from both ends. -/
def pyStrip (s : Str) : Str :=
  ((s.dropWhile fun c => c.isWhitespace).reverse.dropWhile fun c => c.isWhitespace).reverse

/-- `str.lower()`: lower-case every character (ASCII range, `Char.toLower`). -/
def pyLower (s : Str) : Str := s.map Char.toLower

/-- Lexicographic comparison of strings by code point, Python's `<=` on `str`. -/
def lexLe : Str → Str → Bool
  | [], _ => true
  | _ :: _, [] => false
  | a :: as, b :: bs => if a < b then true else if b < a then false else lexLe as bs

/-- The propositional form of `lexLe`, used as the sorting relation. -/
def lexLeP : Str → Str → Prop := fun a b => lexLe a b = true

instance : DecidableRel lexLeP := fun a b => instDecidableEqBool (lexLe a b) true

/-- Add an element to a set represented as a duplicate-free list (`set.add`). -/
def insertSet (l : List Str) (x : Str) : List Str := if x ∈ l then l else l ++ [x]

/-- The user symptom set accumulated by `normalize_symptoms` before sorting:
structured selections that are non-empty strings contribute their stripped,
lower-cased form; if the free text is non-empty it is split on commas, the
parts that are non-blank are stripped, lower-cased and added. -/
def userSymptomSet (text_list : Str) (selected_list : List Str) : List Str :=
  let fromSel := selected_list.foldl
    (fun acc s => if s ≠ [] then insertSet acc (pyLower (pyStrip s)) else acc) []
  if text_list ≠ [] then
    ((text_list.splitOn ',').filter fun p => pyStrip p ≠ []).foldl
      (fun acc p => insertSet acc (pyLower (pyStrip p))) fromSel
  else fromSel

/-- `normalize_symptoms(text_list, selected_list)`: the canonical user symptom
set, returned as `sorted(user_set)`. -/
def normalize_symptoms (text_list : Str) (selected_list : List Str) : List Str :=
  List.insertionSort lexLeP (userSymptomSet text_list selected_list)

/-- The embedded knowledge base `DISEASE_SYMPTOMS` of the Python file. -/
def DISEASE_SYMPTOMS : List (Str × List Str) :=
  [("Common Cold".data,
     ["cough".data, "sore throat".data, "runny nose".data, "congestion".data,
      "sneezing".data, "mild fever".data]),
   ("Influenza (Flu)".data,
     ["high fever".data, "body aches".data, "chills".data, "fatigue".data,
      "cough".data, "headache".data, "sore throat".data]),
   ("COVID-19".data,
     ["fever".data, "dry cough".data, "fatigue".data, "loss of taste".data,
      "loss of smell".data, "shortness of breath".data]),
   ("Gastroenteritis".data,
     ["nausea".data, "vomiting".data, "diarrhea".data, "stomach pain".data,
      "dehydration".data]),
   ("Migraine".data,
     ["severe headache".data, "nausea".data, "sensitivity to light".data,
      "visual aura".data]),
   ("Urinary Tract Infection".data,
     ["painful urination".data, "frequent urination".data,
      "lower abdominal pain".data, "cloudy urine".data]),
   ("Hypertension (high BP)".data,
     ["headache".data, "dizziness".data, "nosebleed".data,
      "shortness of breath".data])]

/-- The per-disease result record built by `score_diseases` (the Python dict
with keys `disease`, `matched_symptoms`, `match_count`,
`disease_symptom_count`, `confidence`).  In every dict the code builds, the
stored float `confidence` equals `match_count / max(1, disease_symptom_count)`
by construction, so the embedding keeps the two counts and exposes the
confidence as the derived exact rational `ScoredCandidate.confidence`. -/
structure ScoredCandidate where
  disease : Str
  matched_symptoms : List Str
  match_count : Nat
  disease_symptom_count : Nat
deriving DecidableEq

/-- The confidence value of a candidate:
`len(match) / max(1, len(set_sym))` as an exact rational. -/
def ScoredCandidate.confidence (c : ScoredCandidate) : ℚ :=
  (c.match_count : ℚ) / ((max 1 c.disease_symptom_count : Nat) : ℚ)

/-- `{s.lower() for s in symptoms}`: the canonical (lower-cased, deduplicated)
symptom set of a knowledge-base entry, as a duplicate-free list. -/
def canonSet (symptoms : List Str) : List Str :=
  (symptoms.map pyLower).foldl insertSet []

/-- The scored-candidate record built for one knowledge-base entry:
`matched` is the intersection of the canonical symptom set with the user's
set, reported sorted; the confidence operands are `len(match)` and
`max(1, len(set_sym))`. -/
def mkCandidate (user : List Str) (entry : Str × List Str) : ScoredCandidate :=
  let setSym := canonSet entry.2
  let matched := setSym.filter fun s => decide (s ∈ user)
  { disease := entry.1
    matched_symptoms := List.insertionSort lexLeP matched
    match_count := matched.length
    disease_symptom_count := setSym.length }

/-- The denominator of the confidence of a candidate: the `max(1, len(set_sym))`
guard of the code. -/
def confDen (c : ScoredCandidate) : Nat := max 1 c.disease_symptom_count

/-- The comparator of the final ranking: `a` may precede `b` iff the key
`(confidence, match_count)` of `a` is at least that of `b`, keys compared
lexicographically and confidences compared as exact quotients via
cross-multiplication (see `scoreLe_iff`).  Sorting by this relation with a
stable sort is exactly Python's
`sorted(scores, key=lambda x: (x['confidence'], x['match_count']), reverse=True)`. -/
def scoreLe (a b : ScoredCandidate) : Bool :=
  if b.match_count * confDen a < a.match_count * confDen b then true
  else if a.match_count * confDen b < b.match_count * confDen a then false
  else decide (b.match_count ≤ a.match_count)

/-- The propositional form of `scoreLe`, used as the sorting relation. -/
def scoreLeP : ScoredCandidate → ScoredCandidate → Prop := fun a b => scoreLe a b = true

instance : DecidableRel scoreLeP := fun a b => instDecidableEqBool (scoreLe a b) true

/-- The scoring function, generic in the knowledge base it iterates over. -/
def scoreKB (kb : List (Str × List Str)) (user : List Str) : List ScoredCandidate :=
  List.insertionSort scoreLeP (kb.map (mkCandidate user))

/-- `score_diseases(user_symptoms)`: one scored candidate per disease of
`DISEASE_SYMPTOMS`, sorted by `(confidence, match_count)` descending. -/
def score_diseases (user : List Str) : List ScoredCandidate :=
  scoreKB DISEASE_SYMPTOMS user

/-! ### Character-level facts -/

theorem char_toNat_ofNat {n : Nat} (h : n.isValidChar) : (Char.ofNat n).toNat = n := by
  rw [Char.ofNat, dif_pos h]
  rfl

theorem char_eq_of_toNat_eq {c d : Char} (h : c.toNat = d.toNat) : c = d :=
  Char.ext (UInt32.eq_of_toBitVec_eq (BitVec.eq_of_toNat_eq h))

theorem char_ws_iff {c : Char} :
    c.isWhitespace = true ↔ c.toNat = 32 ∨ c.toNat = 9 ∨ c.toNat = 13 ∨ c.toNat = 10 := by
  constructor
  · intro h
    simp only [Char.isWhitespace, Bool.or_eq_true, decide_eq_true_eq] at h
    rcases h with ((h | h) | h) | h <;> subst h <;> simp [Char.toNat]
  · intro h
    have : c = ' ' ∨ c = '\t' ∨ c = '\r' ∨ c = '\n' := by
      rcases h with h | h | h | h
      · exact Or.inl (char_eq_of_toNat_eq h)
      · exact Or.inr (Or.inl (char_eq_of_toNat_eq h))
      · exact Or.inr (Or.inr (Or.inl (char_eq_of_toNat_eq h)))
      · exact Or.inr (Or.inr (Or.inr (char_eq_of_toNat_eq h)))
    rcases this with h | h | h | h <;> subst h <;> rfl

theorem toLower_toNat_of_upper {c : Char} (h1 : 65 ≤ c.toNat) (h2 : c.toNat ≤ 90) :
    c.toLower.toNat = c.toNat + 32 := by
  simp only [Char.toLower]
  rw [if_pos ⟨h1, h2⟩]
  exact char_toNat_ofNat (Or.inl (by omega))

theorem toLower_of_not_upper {c : Char} (h : ¬(65 ≤ c.toNat ∧ c.toNat ≤ 90)) :
    c.toLower = c := by
  simp only [Char.toLower]
  exact if_neg h

theorem toLower_toLower (c : Char) : c.toLower.toLower = c.toLower := by
  by_cases h : 65 ≤ c.toNat ∧ c.toNat ≤ 90
  · have ht := toLower_toNat_of_upper h.1 h.2
    exact toLower_of_not_upper (by omega)
  · rw [toLower_of_not_upper h, toLower_of_not_upper h]

theorem ws_toLower (c : Char) : c.toLower.isWhitespace = c.isWhitespace := by
  by_cases h : 65 ≤ c.toNat ∧ c.toNat ≤ 90
  · have ht := toLower_toNat_of_upper h.1 h.2
    rw [Bool.eq_iff_iff, char_ws_iff, char_ws_iff, ht]
    omega
  · rw [toLower_of_not_upper h]

/-! ### Facts about `pyLower` and `pyStrip` -/

theorem pyLower_pyLower (s : Str) : pyLower (pyLower s) = pyLower s := by
  simp only [pyLower, List.map_map]
  congr 1
  funext c
  exact toLower_toLower c

theorem pyLower_eq_nil_iff {s : Str} : pyLower s = [] ↔ s = [] := by
  simp [pyLower]

theorem dropWhile_ws_eq_self_of_head {l : Str}
    (h : ∀ c, l.head? = some c → c.isWhitespace = false) :
    l.dropWhile (fun c => c.isWhitespace) = l := by
  cases l with
  | nil => rfl
  | cons c t => rw [List.dropWhile_cons, h c rfl]; simp

theorem dropWhile_append_eq (p : Char → Bool) (l : Str) :
    ∃ t, l = t ++ l.dropWhile p := by
  induction l with
  | nil => exact ⟨[], rfl⟩
  | cons c t ih =>
    rw [List.dropWhile_cons]
    by_cases h : p c = true
    · obtain ⟨u, hu⟩ := ih
      exact ⟨c :: u, by simp [h, ← hu]⟩
    · exact ⟨[], by simp [h]⟩

theorem head_dropWhile_ws (l : Str) (c : Char)
    (h : (l.dropWhile fun c => c.isWhitespace).head? = some c) :
    c.isWhitespace = false := by
  have := List.head?_dropWhile_not (fun c => c.isWhitespace) l
  rw [h] at this
  exact this

theorem pyStrip_idem (s : Str) : pyStrip (pyStrip s) = pyStrip s := by
  set u := s.dropWhile (fun c => c.isWhitespace) with hu
  set w := u.reverse.dropWhile (fun c => c.isWhitespace) with hw
  have hs : pyStrip s = w.reverse := rfl
  have hww : w.dropWhile (fun c => c.isWhitespace) = w := by
    rw [hw, List.dropWhile_idempotent]
  have hwr : w.reverse.dropWhile (fun c => c.isWhitespace) = w.reverse := by
    apply dropWhile_ws_eq_self_of_head
    intro c hc
    rw [List.head?_reverse] at hc
    obtain ⟨t, ht⟩ := dropWhile_append_eq (fun c => c.isWhitespace) u.reverse
    rw [← hw] at ht
    have hc2 : u.reverse.getLast? = some c := by
      rw [ht, List.getLast?_append, hc]
      rfl
    rw [List.getLast?_reverse] at hc2
    exact head_dropWhile_ws s c (hu ▸ hc2)
  rw [hs]
  show ((w.reverse.dropWhile fun c => c.isWhitespace).reverse.dropWhile
      fun c => c.isWhitespace).reverse = w.reverse
  rw [hwr, List.reverse_reverse, hww]

theorem pyStrip_pyLower (s : Str) : pyStrip (pyLower s) = pyLower (pyStrip s) := by
  have hws : ((fun c => c.isWhitespace) ∘ Char.toLower) = fun c : Char => c.isWhitespace :=
    funext fun c => ws_toLower c
  show ((((s.map Char.toLower).dropWhile fun c => c.isWhitespace).reverse.dropWhile
      fun c => c.isWhitespace)).reverse = pyLower (pyStrip s)
  rw [List.dropWhile_map, hws, ← List.map_reverse, List.dropWhile_map, hws, ← List.map_reverse]
  rfl

/-! ### `lexLe` is a linear order on strings -/

theorem lexLe_total : ∀ a b : Str, lexLe a b = true ∨ lexLe b a = true
  | [], _ => Or.inl rfl
  | _ :: _, [] => Or.inr rfl
  | a :: as, b :: bs => by
    rcases lt_trichotomy a b with h | h | h
    · left
      simp [lexLe, h]
    · subst h
      simpa [lexLe] using lexLe_total as bs
    · right
      simp [lexLe, h]

theorem lexLe_refl (a : Str) : lexLe a a = true :=
  (lexLe_total a a).elim id id

theorem lexLe_trans : ∀ a b c : Str, lexLe a b = true → lexLe b c = true → lexLe a c = true
  | [], _, _, _, _ => rfl
  | _ :: _, [], _, h1, _ => by simp [lexLe] at h1
  | _ :: _, _ :: _, [], _, h2 => by simp [lexLe] at h2
  | a :: as, b :: bs, c :: cs, h1, h2 => by
    simp only [lexLe] at h1 h2 ⊢
    rcases lt_trichotomy a b with hab | hab | hab
    · rcases lt_trichotomy b c with hbc | hbc | hbc
      · simp [lt_trans hab hbc]
      · subst hbc
        simp [hab]
      · rw [if_neg (lt_asymm hbc), if_pos hbc] at h2
        exact absurd h2 (by decide)
    · subst hab
      rw [if_neg (lt_irrefl a), if_neg (lt_irrefl a)] at h1
      rcases lt_trichotomy a c with hac | hac | hac
      · simp [hac]
      · subst hac
        rw [if_neg (lt_irrefl a), if_neg (lt_irrefl a)] at h2 ⊢
        exact lexLe_trans as bs cs h1 h2
      · rw [if_neg (lt_asymm hac), if_pos hac] at h2
        exact absurd h2 (by decide)
    · rw [if_neg (lt_asymm hab), if_pos hab] at h1
      exact absurd h1 (by decide)

theorem lexLe_antisymm : ∀ a b : Str, lexLe a b = true → lexLe b a = true → a = b
  | [], [], _, _ => rfl
  | [], _ :: _, _, h2 => by simp [lexLe] at h2
  | _ :: _, [], h1, _ => by simp [lexLe] at h1
  | a :: as, b :: bs, h1, h2 => by
    simp only [lexLe] at h1 h2
    rcases lt_trichotomy a b with hab | hab | hab
    · rw [if_neg (lt_asymm hab), if_pos hab] at h2
      exact absurd h2 (by decide)
    · subst hab
      rw [if_neg (lt_irrefl a), if_neg (lt_irrefl a)] at h1 h2
      rw [lexLe_antisymm as bs h1 h2]
    · rw [if_neg (lt_asymm hab), if_pos hab] at h1
      exact absurd h1 (by decide)

instance : IsTotal Str lexLeP := ⟨lexLe_total⟩

instance : IsTrans Str lexLeP := ⟨lexLe_trans⟩

instance : IsAntisymm Str lexLeP := ⟨lexLe_antisymm⟩

/-! ### `scoreLe` is a total preorder and matches the rational comparisons -/

theorem confDen_pos (c : ScoredCandidate) : 0 < confDen c :=
  Nat.lt_of_lt_of_le Nat.zero_lt_one (le_max_left _ _)

theorem confidence_def (c : ScoredCandidate) :
    c.confidence = (c.match_count : ℚ) / (confDen c : ℚ) := rfl

theorem cross_lt_trans {an ad bn bd cn cd : Nat} (had : 0 < ad) (hcd : 0 < cd)
    (h1 : an * bd < bn * ad) (h2 : bn * cd < cn * bd) : an * cd < cn * ad := by
  have key : an * cd * bd < cn * ad * bd := by
    calc an * cd * bd = an * bd * cd := by ring
    _ < bn * ad * cd := mul_lt_mul_of_pos_right h1 hcd
    _ = bn * cd * ad := by ring
    _ < cn * bd * ad := mul_lt_mul_of_pos_right h2 had
    _ = cn * ad * bd := by ring
  exact lt_of_mul_lt_mul_right key (Nat.zero_le bd)

theorem cross_eq_lt_trans {an ad bn bd cn cd : Nat} (had : 0 < ad)
    (h1 : an * bd = bn * ad) (h2 : bn * cd < cn * bd) : an * cd < cn * ad := by
  have key : an * cd * bd < cn * ad * bd := by
    calc an * cd * bd = an * bd * cd := by ring
    _ = bn * ad * cd := by rw [h1]
    _ = bn * cd * ad := by ring
    _ < cn * bd * ad := mul_lt_mul_of_pos_right h2 had
    _ = cn * ad * bd := by ring
  exact lt_of_mul_lt_mul_right key (Nat.zero_le bd)

theorem cross_lt_eq_trans {an ad bn bd cn cd : Nat} (hcd : 0 < cd)
    (h1 : an * bd < bn * ad) (h2 : bn * cd = cn * bd) : an * cd < cn * ad := by
  have key : an * cd * bd < cn * ad * bd := by
    calc an * cd * bd = an * bd * cd := by ring
    _ < bn * ad * cd := mul_lt_mul_of_pos_right h1 hcd
    _ = bn * cd * ad := by ring
    _ = cn * bd * ad := by rw [h2]
    _ = cn * ad * bd := by ring
  exact lt_of_mul_lt_mul_right key (Nat.zero_le bd)

theorem cross_eq_trans {an ad bn bd cn cd : Nat} (hbd : 0 < bd)
    (h1 : an * bd = bn * ad) (h2 : bn * cd = cn * bd) : an * cd = cn * ad := by
  apply Nat.eq_of_mul_eq_mul_right hbd
  calc an * cd * bd = an * bd * cd := by ring
  _ = bn * ad * cd := by rw [h1]
  _ = bn * cd * ad := by ring
  _ = cn * bd * ad := by rw [h2]
  _ = cn * ad * bd := by ring

theorem scoreLe_eq_true_iff {a b : ScoredCandidate} :
    scoreLe a b = true ↔
      (b.match_count * confDen a < a.match_count * confDen b ∨
        (a.match_count * confDen b = b.match_count * confDen a ∧
          b.match_count ≤ a.match_count)) := by
  unfold scoreLe
  split_ifs with h1 h2
  · simp [h1]
  · simp only [Bool.false_eq_true, false_iff]
    intro hcon
    rcases hcon with hlt | ⟨he, _⟩
    · exact h1 hlt
    · rw [he] at h2
      exact lt_irrefl _ h2
  · have heq : a.match_count * confDen b = b.match_count * confDen a :=
      Nat.le_antisymm (Nat.le_of_not_lt h1) (Nat.le_of_not_lt h2)
    simp only [decide_eq_true_eq]
    constructor
    · intro hm
      exact Or.inr ⟨heq, hm⟩
    · rintro (hlt | ⟨_, hm⟩)
      · exact absurd hlt h1
      · exact hm

theorem scoreLe_total (a b : ScoredCandidate) : scoreLe a b = true ∨ scoreLe b a = true := by
  rcases Nat.lt_trichotomy (b.match_count * confDen a) (a.match_count * confDen b) with h | h | h
  · exact Or.inl (scoreLe_eq_true_iff.mpr (Or.inl h))
  · rcases Nat.le_total b.match_count a.match_count with hm | hm
    · exact Or.inl (scoreLe_eq_true_iff.mpr (Or.inr ⟨h.symm, hm⟩))
    · exact Or.inr (scoreLe_eq_true_iff.mpr (Or.inr ⟨h, hm⟩))
  · exact Or.inr (scoreLe_eq_true_iff.mpr (Or.inl h))

theorem scoreLe_trans (a b c : ScoredCandidate) :
    scoreLe a b = true → scoreLe b c = true → scoreLe a c = true := by
  intro h1 h2
  rw [scoreLe_eq_true_iff] at h1 h2 ⊢
  rcases h1 with h1 | ⟨he1, hm1⟩
  · rcases h2 with h2 | ⟨he2, hm2⟩
    · exact Or.inl (cross_lt_trans (confDen_pos c) (confDen_pos a) h2 h1)
    · exact Or.inl (cross_eq_lt_trans (confDen_pos c) he2.symm h1)
  · rcases h2 with h2 | ⟨he2, hm2⟩
    · exact Or.inl (cross_lt_eq_trans (confDen_pos a) h2 he1.symm)
    · exact Or.inr ⟨cross_eq_trans (confDen_pos b) he1 he2, le_trans hm2 hm1⟩

instance : IsTotal ScoredCandidate scoreLeP := ⟨scoreLe_total⟩

instance : IsTrans ScoredCandidate scoreLeP := ⟨scoreLe_trans⟩

theorem confidence_lt_iff (a b : ScoredCandidate) :
    a.confidence < b.confidence ↔
      a.match_count * confDen b < b.match_count * confDen a := by
  rw [confidence_def, confidence_def, div_lt_div_iff₀]
  · rw [← Nat.cast_mul, ← Nat.cast_mul, Nat.cast_lt]
  · exact_mod_cast confDen_pos a
  · exact_mod_cast confDen_pos b

theorem confidence_eq_iff (a b : ScoredCandidate) :
    a.confidence = b.confidence ↔
      a.match_count * confDen b = b.match_count * confDen a := by
  rw [confidence_def, confidence_def, div_eq_div_iff]
  · rw [← Nat.cast_mul, ← Nat.cast_mul, Nat.cast_inj]
  · exact_mod_cast (confDen_pos a).ne'
  · exact_mod_cast (confDen_pos b).ne'

/-- The comparator decides exactly the descending lexicographic order on the
pair of rational confidence and match count. -/
theorem scoreLe_iff (a b : ScoredCandidate) :
    scoreLeP a b ↔
      (b.confidence < a.confidence ∨
        (a.confidence = b.confidence ∧ b.match_count ≤ a.match_count)) := by
  unfold scoreLeP
  rw [scoreLe_eq_true_iff, confidence_lt_iff, confidence_eq_iff]

/-! ### Set-accumulation lemmas -/

theorem mem_insertSet {l : List Str} {x y : Str} :
    y ∈ insertSet l x ↔ y ∈ l ∨ y = x := by
  unfold insertSet
  split_ifs with h
  · constructor
    · exact Or.inl
    · rintro (hy | rfl)
      · exact hy
      · exact h
  · simp

theorem insertSet_nodup {l : List Str} {x : Str} (h : l.Nodup) : (insertSet l x).Nodup := by
  unfold insertSet
  split_ifs with hx
  · exact h
  · rw [List.nodup_append]
    exact ⟨h, List.nodup_singleton x, by simpa [List.disjoint_singleton] using hx⟩

theorem foldl_insertSet_mem (l : List Str) :
    ∀ init x, x ∈ l.foldl insertSet init ↔ x ∈ init ∨ x ∈ l := by
  induction l with
  | nil => intro init x; simp
  | cons p t ih =>
    intro init x
    rw [List.foldl_cons, ih, mem_insertSet, List.mem_cons]
    tauto

theorem foldl_insertSet_nodup (l : List Str) :
    ∀ init, init.Nodup → (l.foldl insertSet init).Nodup := by
  induction l with
  | nil => exact fun _ h => h
  | cons p t ih => exact fun init h => ih _ (insertSet_nodup h)

theorem foldl_guard_eq (sel : List Str) : ∀ init : List Str,
    sel.foldl (fun acc s => if s ≠ [] then insertSet acc (pyLower (pyStrip s)) else acc) init
      = ((sel.filter fun s => s ≠ []).map fun s => pyLower (pyStrip s)).foldl insertSet init := by
  induction sel with
  | nil => intro _; rfl
  | cons s t ih =>
    intro init
    simp only [List.foldl_cons, List.filter_cons]
    by_cases h : s = []
    · subst h
      rw [if_neg (fun hn => hn rfl), ih, if_neg (by simp)]
    · rw [if_pos h, ih, if_pos (by simpa using h), List.map_cons, List.foldl_cons]

theorem userSymptomSet_eq (t : Str) (sel : List Str) :
    userSymptomSet t sel =
      (if t ≠ [] then
          ((t.splitOn ',').filter fun p => pyStrip p ≠ []).map fun p => pyLower (pyStrip p)
        else []).foldl insertSet
        (((sel.filter fun s => s ≠ []).map fun s => pyLower (pyStrip s)).foldl insertSet []) := by
  unfold userSymptomSet
  rw [foldl_guard_eq]
  by_cases ht : t = []
  · simp [ht]
  · simp only [ht, ne_eq, not_false_eq_true, if_true, if_pos]
    rw [← List.foldl_map]

theorem userSymptomSet_nodup (t : Str) (sel : List Str) : (userSymptomSet t sel).Nodup := by
  rw [userSymptomSet_eq]
  exact foldl_insertSet_nodup _ _ (foldl_insertSet_nodup _ _ List.nodup_nil)

theorem mem_userSymptomSet {t : Str} {sel : List Str} {x : Str} :
    x ∈ userSymptomSet t sel ↔
      ((∃ s ∈ sel, s ≠ [] ∧ pyLower (pyStrip s) = x) ∨
        (t ≠ [] ∧ ∃ p ∈ t.splitOn ',', pyStrip p ≠ [] ∧ pyLower (pyStrip p) = x)) := by
  rw [userSymptomSet_eq, foldl_insertSet_mem, foldl_insertSet_mem]
  simp only [List.mem_map, List.mem_filter, List.not_mem_nil, false_or, ne_eq, decide_not]
  constructor
  · rintro (⟨s, ⟨hs, hne⟩, hx⟩ | hx)
    · left
      exact ⟨s, hs, by simpa using hne, hx⟩
    · by_cases ht : t = []
      · rw [if_neg (by simpa using ht)] at hx
        simp at hx
      · rw [if_pos (by simpa using ht)] at hx
        obtain ⟨p, hp, hpx⟩ := List.mem_map.mp hx
        right
        refine ⟨ht, p, (List.mem_filter.mp hp).1, ?_, hpx⟩
        simpa using (List.mem_filter.mp hp).2
  · rintro (⟨s, hs, hne, hx⟩ | ⟨ht, p, hp, hne, hx⟩)
    · left
      exact ⟨s, ⟨hs, by simpa using hne⟩, hx⟩
    · right
      rw [if_pos (by simpa using ht)]
      exact List.mem_map.mpr ⟨p, List.mem_filter.mpr ⟨hp, by simpa using hne⟩, hx⟩

theorem mem_canonSet {symptoms : List Str} {x : Str} :
    x ∈ canonSet symptoms ↔ ∃ s ∈ symptoms, pyLower s = x := by
  unfold canonSet
  rw [foldl_insertSet_mem]
  simp

theorem canonSet_nodup (symptoms : List Str) : (canonSet symptoms).Nodup :=
  foldl_insertSet_nodup _ _ List.nodup_nil

/-! ### Facts about `normalize_symptoms` -/

theorem normalize_perm (t : Str) (sel : List Str) :
    List.Perm (normalize_symptoms t sel) (userSymptomSet t sel) :=
  List.perm_insertionSort lexLeP _

theorem mem_normalize {t : Str} {sel : List Str} {x : Str} :
    x ∈ normalize_symptoms t sel ↔ x ∈ userSymptomSet t sel :=
  List.mem_insertionSort lexLeP

theorem normalize_nodup (t : Str) (sel : List Str) : (normalize_symptoms t sel).Nodup :=
  (normalize_perm t sel).nodup_iff.mpr (userSymptomSet_nodup t sel)

theorem normalize_sorted (t : Str) (sel : List Str) :
    (normalize_symptoms t sel).Sorted lexLeP :=
  List.sorted_insertionSort lexLeP _

theorem normalize_canonical {t : Str} {sel : List Str} {x : Str}
    (hx : x ∈ normalize_symptoms t sel) : pyLower x = x ∧ pyStrip x = x := by
  rw [mem_normalize, mem_userSymptomSet] at hx
  have hex : ∃ y, x = pyLower (pyStrip y) := by
    rcases hx with ⟨s, _, _, h⟩ | ⟨_, p, _, _, h⟩
    · exact ⟨s, h.symm⟩
    · exact ⟨p, h.symm⟩
  obtain ⟨y, rfl⟩ := hex
  refine ⟨pyLower_pyLower _, ?_⟩
  rw [pyStrip_pyLower, pyStrip_idem]

/-! ### Facts about `scoreKB` -/

theorem scoreKB_perm (kb : List (Str × List Str)) (user : List Str) :
    List.Perm (scoreKB kb user) (kb.map (mkCandidate user)) :=
  List.perm_insertionSort scoreLeP _

theorem mem_scoreKB {kb : List (Str × List Str)} {user : List Str} {c : ScoredCandidate} :
    c ∈ scoreKB kb user ↔ c ∈ kb.map (mkCandidate user) :=
  List.mem_insertionSort scoreLeP

theorem scoreKB_sorted (kb : List (Str × List Str)) (user : List Str) :
    (scoreKB kb user).Sorted scoreLeP :=
  List.sorted_insertionSort scoreLeP _

theorem scoreKB_length (kb : List (Str × List Str)) (user : List Str) :
    (scoreKB kb user).length = kb.length := by
  rw [scoreKB, List.length_insertionSort, List.length_map]

theorem mkCandidate_disease (user : List Str) (entry : Str × List Str) :
    (mkCandidate user entry).disease = entry.1 := rfl

theorem mkCandidate_matched (user : List Str) (entry : Str × List Str) :
    (mkCandidate user entry).matched_symptoms =
      List.insertionSort lexLeP ((canonSet entry.2).filter fun s => decide (s ∈ user)) := rfl

theorem mkCandidate_match_count (user : List Str) (entry : Str × List Str) :
    (mkCandidate user entry).match_count =
      ((canonSet entry.2).filter fun s => decide (s ∈ user)).length := rfl

theorem mkCandidate_symptom_count (user : List Str) (entry : Str × List Str) :
    (mkCandidate user entry).disease_symptom_count = (canonSet entry.2).length := rfl

/-! ### Claim theorems -/

/-- C8: for structured selections `["Fever", " Cough "]` and free text
`"headache, Fever"`, `normalize_symptoms` returns exactly the three-element
set {"fever", "cough", "headache"} — the duplicate "fever" is merged and case
and surrounding whitespace are normalized (the set is returned as the sorted
list `["cough", "fever", "headache"]`). -/
theorem claimC8_normalize_scenario :
    normalize_symptoms "headache, Fever".data ["Fever".data, " Cough ".data] =
      ["cough".data, "fever".data, "headache".data] := by decide

/-- C10: `normalize_symptoms` returns its result as a sequence sorted in
strictly ascending lexicographic order, so the order of the output is fully
determined by the canonical values: two calls whose outputs contain the same
elements return equal lists, regardless of input order. -/
theorem claimC10_normalize_sorted (t : Str) (sel : List Str) :
    ((normalize_symptoms t sel).Pairwise fun a b => lexLeP a b ∧ a ≠ b) ∧
      ∀ t2 sel2,
        (∀ x, x ∈ normalize_symptoms t sel ↔ x ∈ normalize_symptoms t2 sel2) →
        normalize_symptoms t sel = normalize_symptoms t2 sel2 := by
  constructor
  · exact (normalize_sorted t sel).and (normalize_nodup t sel)
  · intro t2 sel2 hx
    have hp : List.Perm (normalize_symptoms t sel) (normalize_symptoms t2 sel2) :=
      (List.perm_ext_iff_of_nodup (normalize_nodup t sel) (normalize_nodup t2 sel2)).mpr hx
    exact List.eq_of_perm_of_sorted hp (normalize_sorted t sel) (normalize_sorted t2 sel2)

/-- Witness for C10 at a concrete input: `"b, a"` as free text and
`"a"` plus selection `["b"]` normalize to the same sorted list. -/
theorem claimC10_witness :
    normalize_symptoms "b, a".data [] = normalize_symptoms "a".data ["b".data] :=
  (claimC10_normalize_sorted "b, a".data []).2 "a".data ["b".data] (by
    have h1 : normalize_symptoms "b, a".data [] = ["a".data, "b".data] := by decide
    have h2 : normalize_symptoms "a".data ["b".data] = ["a".data, "b".data] := by decide
    intro x
    rw [h1, h2])

/-- C2 fails as stated: `" "` is a non-empty string, so the code adds
`" ".strip().lower() = ""` to the set, and `normalize_symptoms` returns a set
containing the empty string. -/
theorem claimC2_counterexample :
    ([] : Str) ∈ normalize_symptoms ([] : Str) [" ".data] := by decide

/-- C2 (amended): every element of the output of `normalize_symptoms` equals
its own lower-cased form and its own whitespace-trimmed form and the output
contains no duplicates; moreover, provided every non-empty structured
selection contains a non-whitespace character, every element is also
non-empty. -/
theorem claimC2_normalize_canonical (t : Str) (sel : List Str) :
    ((normalize_symptoms t sel).Nodup ∧
      ∀ x ∈ normalize_symptoms t sel, pyLower x = x ∧ pyStrip x = x) ∧
      ((∀ s ∈ sel, s ≠ [] → pyStrip s ≠ []) →
        ∀ x ∈ normalize_symptoms t sel, x ≠ []) := by
  refine ⟨⟨normalize_nodup t sel, fun x hx => normalize_canonical hx⟩, ?_⟩
  intro hsel x hx
  rw [mem_normalize, mem_userSymptomSet] at hx
  rcases hx with ⟨s, hs, hne, hx⟩ | ⟨_, p, _, hne, hx⟩
  · rw [← hx]
    intro hcon
    exact hsel s hs hne (pyLower_eq_nil_iff.mp hcon)
  · rw [← hx]
    intro hcon
    exact hne (pyLower_eq_nil_iff.mp hcon)

/-- Witness for C2 at a concrete input with both sources of symptoms. -/
theorem claimC2_witness : "fever".data ≠ ([] : Str) :=
  (claimC2_normalize_canonical "cough".data ["Fever".data]).2 (by decide) "fever".data
    (by decide)

/-- C9: scoring is total — invoked on the empty user symptom set it still
returns one candidate per knowledge-base entry, each with `match_count = 0`
and `confidence = 0`; and for every input the `max(1, len(set_sym))`
denominator guard keeps the confidence denominator positive, so no division
by zero is reachable even for a disease with an empty symptom list. -/
theorem claimC9_score_total (kb : List (Str × List Str)) :
    ((scoreKB kb []).length = kb.length ∧
      ∀ c ∈ scoreKB kb [], c.match_count = 0 ∧ c.confidence = 0) ∧
      ∀ user : List Str, ∀ c ∈ scoreKB kb user, 0 < confDen c := by
  refine ⟨⟨scoreKB_length kb [], fun c hc => ?_⟩, fun user c _ => confDen_pos c⟩
  rw [mem_scoreKB] at hc
  obtain ⟨entry, _, rfl⟩ := List.mem_map.mp hc
  have hmc : (mkCandidate [] entry).match_count = 0 := by
    rw [mkCandidate_match_count]
    simp
  refine ⟨hmc, ?_⟩
  rw [confidence_def, hmc]
  simp

/-- C5: for every non-empty user symptom set and non-empty knowledge base,
`score` returns exactly one candidate per disease of the knowledge base: the
multiset of output disease names is exactly the multiset of knowledge-base
names, and for the embedded seven-disease base the ranking has length 7. -/
theorem claimC5_one_candidate_per_disease (user : List Str) (kb : List (Str × List Str))
    (_hu : user ≠ []) (_hkb : kb ≠ []) :
    List.Perm ((scoreKB kb user).map ScoredCandidate.disease) (kb.map Prod.fst) ∧
      (score_diseases user).length = 7 := by
  constructor
  · have heq : List.map (ScoredCandidate.disease ∘ mkCandidate user) kb = kb.map Prod.fst :=
      List.map_congr_left fun e _ => mkCandidate_disease user e
    refine ((scoreKB_perm kb user).map ScoredCandidate.disease).trans ?_
    rw [List.map_map, heq]
  · rw [score_diseases, scoreKB_length]
    rfl

/-- Witness for C5 at a concrete non-empty input. -/
theorem claimC5_witness :
    List.Perm ((scoreKB DISEASE_SYMPTOMS ["fever".data]).map ScoredCandidate.disease)
        (DISEASE_SYMPTOMS.map Prod.fst) ∧
      (score_diseases ["fever".data]).length = 7 :=
  claimC5_one_candidate_per_disease ["fever".data] DISEASE_SYMPTOMS (by decide) (by decide)

/-- C3: the ranking produced by `score_diseases` is sorted non-increasingly by
the composite key (confidence, match_count): for every adjacent pair, `a`
before `b`, either `confidence b < confidence a`, or the confidences are
equal and `match_count b ≤ match_count a`. -/
theorem claimC3_ranking_sorted (user : List Str) :
    (score_diseases user).Chain' fun a b =>
      b.confidence < a.confidence ∨
        (a.confidence = b.confidence ∧ b.match_count ≤ a.match_count) := by
  have hp := (scoreKB_sorted DISEASE_SYMPTOMS user).imp
    (fun h => (scoreLe_iff _ _).mp h)
  exact hp.chain'

/-- C7: `score_diseases` is a deterministic function, and candidates tied on
both confidence and match count keep the knowledge base's original relative
order (the sort is stable): a tied pair listed in knowledge-base order in the
pre-sort candidate list is still in that order in the ranking. -/
theorem claimC7_deterministic_stable (user : List Str) :
    score_diseases user = score_diseases user ∧
      ∀ a b : ScoredCandidate, a.confidence = b.confidence →
        a.match_count = b.match_count →
        [a, b].Sublist (DISEASE_SYMPTOMS.map (mkCandidate user)) →
        [a, b].Sublist (score_diseases user) := by
  refine ⟨rfl, fun a b hconf hmc hab => ?_⟩
  exact List.pair_sublist_insertionSort
    ((scoreLe_iff a b).mpr (Or.inr ⟨hconf, le_of_eq hmc.symm⟩)) hab

/-- Witness for C7: with no user symptoms, the Gastroenteritis and Migraine
candidates are tied (both zero confidence, zero matches) and keep their
knowledge-base order in the ranking. -/
theorem claimC7_witness :
    [mkCandidate [] ("Gastroenteritis".data,
        ["nausea".data, "vomiting".data, "diarrhea".data, "stomach pain".data,
          "dehydration".data]),
      mkCandidate [] ("Migraine".data,
        ["severe headache".data, "nausea".data, "sensitivity to light".data,
          "visual aura".data])].Sublist (score_diseases []) := by
  refine (claimC7_deterministic_stable []).2 _ _ ?_ (by decide) (by decide)
  have h1 : (mkCandidate [] ("Gastroenteritis".data,
      ["nausea".data, "vomiting".data, "diarrhea".data, "stomach pain".data,
        "dehydration".data])).match_count = 0 := by decide
  have h2 : (mkCandidate [] ("Migraine".data,
      ["severe headache".data, "nausea".data, "sensitivity to light".data,
        "visual aura".data])).match_count = 0 := by decide
  rw [confidence_def, confidence_def, h1, h2]
  norm_num

/-- C4: every candidate produced by `score_diseases` has a confidence between
0 and 1; each candidate is the record built for some knowledge-base entry,
and its confidence equals 1 exactly when its matched-symptom list contains
the same symptoms as the disease's full canonical symptom set. -/
theorem claimC4_confidence_bounds (user : List Str) (c : ScoredCandidate)
    (hc : c ∈ score_diseases user) :
    (0 ≤ c.confidence ∧ c.confidence ≤ 1) ∧
      ∃ e, e ∈ DISEASE_SYMPTOMS ∧ c = mkCandidate user e ∧
        (c.confidence = 1 ↔ ∀ s, s ∈ c.matched_symptoms ↔ s ∈ canonSet e.2) := by
  rw [score_diseases, mem_scoreKB] at hc
  obtain ⟨e, he, rfl⟩ := List.mem_map.mp hc
  have hden : (0 : ℚ) < (confDen (mkCandidate user e) : ℚ) := by
    exact_mod_cast confDen_pos _
  have hmn : ((canonSet e.2).filter fun s => decide (s ∈ user)).length ≤
      (canonSet e.2).length := List.length_filter_le _ _
  constructor
  · constructor
    · rw [confidence_def]
      exact div_nonneg (Nat.cast_nonneg _) (Nat.cast_nonneg _)
    · rw [confidence_def, div_le_one hden, mkCandidate_match_count]
      have hle : ((canonSet e.2).filter fun s => decide (s ∈ user)).length ≤
          confDen (mkCandidate user e) := by
        rw [confDen, mkCandidate_symptom_count]
        exact le_trans hmn (le_max_right 1 _)
      exact_mod_cast hle
  · refine ⟨e, he, rfl, ?_⟩
    have hcanon : canonSet e.2 ≠ [] := by
      have hall : ∀ x ∈ DISEASE_SYMPTOMS, canonSet x.2 ≠ [] := by decide
      exact hall e he
    have hn1 : 1 ≤ (canonSet e.2).length := List.length_pos.mpr hcanon
    have hconf1 : (mkCandidate user e).confidence = 1 ↔
        ((canonSet e.2).filter fun s => decide (s ∈ user)).length =
          (canonSet e.2).length := by
      rw [confidence_def, div_eq_iff (ne_of_gt hden), one_mul, confDen,
        mkCandidate_symptom_count, mkCandidate_match_count, max_eq_right hn1]
      exact Nat.cast_inj
    rw [hconf1]
    constructor
    · intro hlen
      have heq : ((canonSet e.2).filter fun s => decide (s ∈ user)) = canonSet e.2 :=
        (List.filter_sublist _).eq_of_length hlen
      intro s
      simp only [mkCandidate_matched, List.mem_insertionSort, heq]
    · intro hiff
      have hfe : ((canonSet e.2).filter fun s => decide (s ∈ user)) = canonSet e.2 := by
        apply List.filter_eq_self.mpr
        intro s hs
        have hsm : s ∈ (mkCandidate user e).matched_symptoms := (hiff s).mpr hs
        rw [mkCandidate_matched, List.mem_insertionSort] at hsm
        exact (List.mem_filter.mp hsm).2
      rw [hfe]

/-- Witness for C4: reporting all five Gastroenteritis symptoms yields a
candidate whose confidence lies in [0, 1] (its value is in fact 1). -/
theorem claimC4_witness :
    0 ≤ (mkCandidate
        ["nausea".data, "vomiting".data, "diarrhea".data, "stomach pain".data,
          "dehydration".data]
        ("Gastroenteritis".data,
          ["nausea".data, "vomiting".data, "diarrhea".data, "stomach pain".data,
            "dehydration".data])).confidence ∧
      (mkCandidate
        ["nausea".data, "vomiting".data, "diarrhea".data, "stomach pain".data,
          "dehydration".data]
        ("Gastroenteritis".data,
          ["nausea".data, "vomiting".data, "diarrhea".data, "stomach pain".data,
            "dehydration".data])).confidence ≤ 1 :=
  (claimC4_confidence_bounds
    ["nausea".data, "vomiting".data, "diarrhea".data, "stomach pain".data,
      "dehydration".data]
    (mkCandidate
      ["nausea".data, "vomiting".data, "diarrhea".data, "stomach pain".data,
        "dehydration".data]
      ("Gastroenteritis".data,
        ["nausea".data, "vomiting".data, "diarrhea".data, "stomach pain".data,
          "dehydration".data]))
    (by decide)).1

/-- C1 fails as stated: with user symptoms {"fever", "cough"}, neither the
Influenza nor the COVID-19 candidate has `match_count = 2` — the knowledge
base lists `"high fever"` for Influenza and `"dry cough"` for COVID-19, which
are not equal to `"fever"`/`"cough"`, so each disease matches exactly one
symptom. -/
theorem claimC1_counterexample :
    ¬(((score_diseases ["cough".data, "fever".data]).find? fun c =>
        decide (c.disease = "Influenza (Flu)".data)).map ScoredCandidate.match_count =
          some 2 ∧
      ((score_diseases ["cough".data, "fever".data]).find? fun c =>
        decide (c.disease = "COVID-19".data)).map ScoredCandidate.match_count =
          some 2) := by
  decide

/-- C1 (amended): for the user symptom set {"fever", "cough"}, the Influenza
and COVID-19 candidates each have `match_count = 1` (only "cough" matches
Influenza and only "fever" matches COVID-19), with confidence 1/7 for
Influenza and 1/6 for COVID-19, so COVID-19 is ranked above Influenza in the
output of `score_diseases`. -/
theorem claimC1_amended :
    ((score_diseases ["cough".data, "fever".data]).find? fun c =>
        decide (c.disease = "Influenza (Flu)".data)).map ScoredCandidate.match_count =
        some 1 ∧
      ((score_diseases ["cough".data, "fever".data]).find? fun c =>
        decide (c.disease = "COVID-19".data)).map ScoredCandidate.match_count =
        some 1 ∧
      ((score_diseases ["cough".data, "fever".data]).find? fun c =>
        decide (c.disease = "Influenza (Flu)".data)).map ScoredCandidate.confidence =
        some ((1 : ℚ) / 7) ∧
      ((score_diseases ["cough".data, "fever".data]).find? fun c =>
        decide (c.disease = "COVID-19".data)).map ScoredCandidate.confidence =
        some ((1 : ℚ) / 6) ∧
      ((score_diseases ["cough".data, "fever".data]).findIdx fun c =>
        decide (c.disease = "COVID-19".data)) <
        ((score_diseases ["cough".data, "fever".data]).findIdx fun c =>
          decide (c.disease = "Influenza (Flu)".data)) := by
  have hflu : ((score_diseases ["cough".data, "fever".data]).find? fun c =>
      decide (c.disease = "Influenza (Flu)".data)) =
      some ⟨"Influenza (Flu)".data, ["cough".data], 1, 7⟩ := by decide
  have hcov : ((score_diseases ["cough".data, "fever".data]).find? fun c =>
      decide (c.disease = "COVID-19".data)) =
      some ⟨"COVID-19".data, ["fever".data], 1, 6⟩ := by decide
  have hfluDen : confDen (⟨"Influenza (Flu)".data, ["cough".data], 1, 7⟩ : ScoredCandidate) = 7 :=
    by decide
  have hcovDen : confDen (⟨"COVID-19".data, ["fever".data], 1, 6⟩ : ScoredCandidate) = 6 :=
    by decide
  refine ⟨?_, ?_, ?_, ?_, ?_⟩
  · rw [hflu]
    rfl
  · rw [hcov]
    rfl
  · rw [hflu, Option.map_some']
    have hc : (⟨"Influenza (Flu)".data, ["cough".data], 1, 7⟩ : ScoredCandidate).confidence =
        (1 : ℚ) / 7 := by
      rw [confidence_def, hfluDen]
      norm_num
    rw [hc]
  · rw [hcov, Option.map_some']
    have hc : (⟨"COVID-19".data, ["fever".data], 1, 6⟩ : ScoredCandidate).confidence =
        (1 : ℚ) / 6 := by
      rw [confidence_def, hcovDen]
      norm_num
    rw [hc]
  · decide

/-! ### Lemmas for the normalize round trip (C6) -/

theorem foldl_insertSet_append : ∀ (l init : List Str),
    (init ++ l).Nodup → l.foldl insertSet init = init ++ l := by
  intro l
  induction l with
  | nil => intro init _; simp
  | cons x tl ih =>
    intro init hnd
    rw [List.foldl_cons]
    have hx : x ∉ init := by
      rcases List.nodup_append.mp hnd with ⟨-, -, hdisj⟩
      exact fun hmem => hdisj hmem (List.mem_cons_self x tl)
    have hins : insertSet init x = init ++ [x] := by
      unfold insertSet
      rw [if_neg hx]
    rw [hins, ih (init ++ [x]) (by simpa using hnd)]
    simp

theorem foldl_insertSet_eq_self {l : List Str} (h : l.Nodup) :
    l.foldl insertSet [] = l := by
  simpa using foldl_insertSet_append l [] (by simpa using h)

/-- Feeding a sorted, duplicate-free list of canonical, non-blank, comma-free
symptom strings back through `normalize_symptoms` as comma-joined free text
reproduces it. -/
theorem normalize_of_canonical (out : List Str)
    (hnodup : out.Nodup) (hsorted : out.Sorted lexLeP)
    (hcanon : ∀ x ∈ out, pyLower x = x ∧ pyStrip x = x)
    (hne : ∀ x ∈ out, x ≠ []) (hcomma : ∀ x ∈ out, ',' ∉ x) :
    normalize_symptoms ([','].intercalate out) [] = out := by
  by_cases hout : out = []
  · subst hout
    rfl
  · have hsplit : ([','].intercalate out).splitOn ',' = out :=
      List.splitOn_intercalate out ',' hcomma hout
    have hjoined : [','].intercalate out ≠ [] := by
      obtain ⟨x, rest, hx⟩ : ∃ x rest, out = x :: rest := by
        cases hxs : out with
        | nil => exact absurd hxs hout
        | cons a rest => exact ⟨a, rest, rfl⟩
      have hxne : x ≠ [] := hne x (by rw [hx]; exact List.mem_cons_self x rest)
      rw [hx]
      cases rest with
      | nil => simpa [List.intercalate] using hxne
      | cons y rest2 =>
        rw [List.intercalate, List.intersperse_cons_cons, List.flatten_cons]
        intro hc
        exact hxne (List.append_eq_nil.mp hc).1
    have hfilter : (out.filter fun p => pyStrip p ≠ []) = out := by
      apply List.filter_eq_self.mpr
      intro p hp
      rw [decide_eq_true_eq, (hcanon p hp).2]
      exact hne p hp
    have hmap : (out.map fun p => pyLower (pyStrip p)) = out := by
      conv_rhs => rw [← List.map_id out]
      apply List.map_congr_left
      intro p hp
      rw [(hcanon p hp).2, (hcanon p hp).1]
      rfl
    unfold normalize_symptoms
    rw [userSymptomSet_eq]
    simp only [List.filter_nil, List.map_nil, List.foldl_nil]
    rw [if_pos hjoined, hsplit, hfilter, hmap, foldl_insertSet_eq_self hnodup]
    exact hsorted.insertionSort_eq

/-- C6 fails as stated: a structured selection containing a comma survives
normalization intact, but splits into two symptoms on the round trip. -/
theorem claimC6_counterexample :
    normalize_symptoms ([','].intercalate (normalize_symptoms ([] : Str) ["a,b".data])) [] ≠
      normalize_symptoms ([] : Str) ["a,b".data] := by decide

/-- C6 (amended): the round trip is idempotent for every input whose
normalized output contains no empty string and no comma (free-text
contributions always satisfy this; a blank or comma-containing structured
selection is the only way to break it): joining the output of
`normalize_symptoms` with commas, feeding it back as free text with no
structured selections, and normalizing again returns the same set. -/
theorem claimC6_roundtrip (t : Str) (sel : List Str)
    (h : ∀ x ∈ normalize_symptoms t sel, x ≠ [] ∧ ',' ∉ x) :
    normalize_symptoms ([','].intercalate (normalize_symptoms t sel)) [] =
      normalize_symptoms t sel :=
  normalize_of_canonical (normalize_symptoms t sel) (normalize_nodup t sel)
    (normalize_sorted t sel) (fun _ hx => normalize_canonical hx)
    (fun x hx => (h x hx).1) (fun x hx => (h x hx).2)

/-- Witness for C6 at a concrete input: {"fever", "cough"} round-trips. -/
theorem claimC6_witness :
    normalize_symptoms
        ([','].intercalate (normalize_symptoms "fever, cough".data [])) [] =
      normalize_symptoms "fever, cough".data [] :=
  claimC6_roundtrip "fever, cough".data [] (by decide)
